import Mathlib

/-!
Verification of the range-addressing and local command-routing subsystem
of a range-partitioned key-value store.

The development shallowly embeds:
  - the key/descriptor data model (proto.Key, proto.RangeDescriptor,
    proto.RequestHeader, proto.Transaction, proto.Replica);
  - the addressing-index updater (SplitRangeAddressing /
    MergeRangeAddressing), modelled from the spec because only its test
    is in the repository sample;
  - the LocalSender registry and its Send routing loop
    (kv/local_sender.go), including the bounded two-attempt retry on
    RangeKeyMismatch, the store registry operations, and the scoped
    narrowing of a transaction's MaxTimestamp.
-/

/-- Keys are ordered byte sequences (proto.Key); bytes are modelled as
naturals, compared with the lexicographic order of bytes.Compare. -/
abbrev Key : Type := List Nat

/-- Lexicographic strict order on keys, matching proto.Key.Less
(bytes.Compare(a, b) < 0): a proper initial segment is smaller. -/
def keyLess : Key → Key → Bool
  | [], [] => false
  | [], _ :: _ => true
  | _ :: _, [] => false
  | a :: as, b :: bs => if a < b then true else if b < a then false else keyLess as bs

/-- Prefix test on keys (bytes.HasPrefix). -/
def keyHasPre : Key → Key → Bool
  | [], _ => true
  | _ :: _, [] => false
  | p :: ps, k :: ks => decide (p = k) && keyHasPre ps ks

/-- Replica placement entry (proto.Replica): the node and store hosting a copy. -/
structure Replica where
  nodeID : Nat
  storeID : Nat
deriving DecidableEq

/-- Range descriptor (proto.RangeDescriptor): a contiguous span
with a raft identifier and replica placement. -/
structure RangeDescriptor where
  raftID : Int
  startKey : Key
  endKey : Key
  replicas : List Replica
deriving DecidableEq

/-- Modelled from the spec: the sentinel minimum key KeyMin (empty/lowest key);
the engine key constants are not part of the repository sample. -/
def keyMin : Key := []

/-- Modelled from the spec: the sentinel maximum key KeyMax, above every
ordinary and meta key. -/
def keyMax : Key := [255, 255]

/-- Modelled from the spec: the start of the reserved meta-addressing span
(MetaPrefix in the reserved key layout). -/
def metaPre : Key := [0, 0]

/-- Modelled from the spec: the exclusive upper bound of the reserved
meta-addressing span (MetaMax). -/
def metaMaxKey : Key := [0, 1]

/-- Modelled from the spec: the level-1 addressing key region marker
(Level1Prefix); level-1 records live at Level1Prefix + EndKey. -/
def level1Pre : Key := [0, 0, 1]

/-- Modelled from the spec: the level-2 addressing key region marker
(Level2Prefix); level-2 records live at Level2Prefix + EndKey. -/
def level2Pre : Key := [0, 0, 2]

/-- Modelled from the spec: a key lies in the level-1 or level-2
addressing-prefix region, the condition under which a descriptor
additionally requires a level-1 addressing record. -/
def inMetaPreRegion (e : Key) : Bool :=
  keyHasPre level1Pre e || keyHasPre level2Pre e

/-- Membership of a key in the full meta-addressing span
[MetaPrefix, MetaMax) from the reserved key layout table. -/
def inMetaSpan (e : Key) : Bool :=
  !keyLess e metaPre && keyLess e metaMaxKey

/-- An addressing-index operation: a put of a descriptor at a record key,
or a delete of a record key.  These are the operations of the single
atomic batch that the updater hands to the transactional KV client. -/
inductive IndexOp where
  | put (k : Key) (d : RangeDescriptor)
  | del (k : Key)
deriving DecidableEq

/-- Modelled from the spec: the record keys derived from an end key.
Every descriptor gets a level-2 key Level2Prefix + EndKey; when the end
key itself lies in the addressing-prefix region it additionally gets a
level-1 key Level1Prefix + EndKey. -/
def recordKeysOfEnd (e : Key) : List Key :=
  (level2Pre ++ e) :: (if inMetaPreRegion e then [level1Pre ++ e] else [])

/-- Modelled from the spec: the writes for one descriptor, a level-2
record always and a level-1 record exactly when the end key falls in the
addressing-prefix region. -/
def descRecordOps (d : RangeDescriptor) : List IndexOp :=
  IndexOp.put (level2Pre ++ d.endKey) d ::
    (if inMetaPreRegion d.endKey then [IndexOp.put (level1Pre ++ d.endKey) d] else [])

/-- Modelled from the spec: the deletes removing the records keyed at a
vanished boundary end key (level-2, and level-1 if applicable). -/
def delRecordOps (e : Key) : List IndexOp :=
  IndexOp.del (level2Pre ++ e) ::
    (if inMetaPreRegion e then [IndexOp.del (level1Pre ++ e)] else [])

/-- Error message for the one validation failure of the updater. -/
def invalidSplitMsg : String := "invalid split of a level-1 addressing key"

/-- Modelled from the spec: SplitRangeAddressing(left, right) computes
the addressing writes for a split.  Splitting a level-1 addressing key
is illegal: signal an error and write nothing if left.EndKey falls
inside the level-1 region; otherwise write the level-2 (and conditional
level-1) records for left and for right.  The function is absent from
the repository sample; only its test is present. -/
def SplitRangeAddressing (left right : RangeDescriptor) :
    Except String (List IndexOp) :=
  if keyHasPre level1Pre left.endKey then Except.error invalidSplitMsg
  else Except.ok (descRecordOps left ++ descRecordOps right)

/-- Modelled from the spec: MergeRangeAddressing(left, merged) computes
the addressing writes for a merge: remove the records keyed at
left.EndKey, since that boundary no longer exists, and write the records
for the merged range at its end key, superseding whatever was there.
The function is absent from the repository sample; only its test is
present. -/
def MergeRangeAddressing (left merged : RangeDescriptor) :
    Except String (List IndexOp) :=
  Except.ok (delRecordOps left.endKey ++ descRecordOps merged)

/-- The addressing index modelled as an association list from record key
to range descriptor (the serialized descriptor value of the record). -/
abbrev IndexState : Type := List (Key × RangeDescriptor)

/-- Record lookup in the addressing index. -/
def idxLookup : IndexState → Key → Option RangeDescriptor
  | [], _ => none
  | p :: st, k => if p.1 = k then some p.2 else idxLookup st k

/-- Remove every record with the given key. -/
def idxDel : IndexState → Key → IndexState
  | [], _ => []
  | p :: st, k => if p.1 = k then idxDel st k else p :: idxDel st k

/-- Apply one index operation; a put overwrites any record at its key
(the most recent write for a given key wins). -/
def applyOp (st : IndexState) : IndexOp → IndexState
  | IndexOp.put k d => (k, d) :: idxDel st k
  | IndexOp.del k => idxDel st k

/-- Apply a batch of index operations in order. -/
def applyOps (st : IndexState) (ops : List IndexOp) : IndexState :=
  ops.foldl applyOp st

/-- Extract the operation list of an updater result; an error carries no
operations, leaving the index untouched. -/
def opsOrEmpty : Except String (List IndexOp) → List IndexOp
  | Except.ok l => l
  | Except.error _ => []

/-- Logical/physical timestamp (proto.Timestamp). -/
structure Timestamp where
  wallTime : Int
  logical : Int
deriving DecidableEq

/-- Transaction record (proto.Transaction), restricted to the fields the
router touches: the exact timestamp, the uncertainty upper bound
MaxTimestamp, and the CertainNodes set. -/
structure Txn where
  timestamp : Timestamp
  maxTimestamp : Timestamp
  certainNodes : List Nat
deriving DecidableEq

/-- Client command identifier (proto.ClientCmdID): wall time plus random
nonce, used by the receiving store for idempotency. -/
structure ClientCmdID where
  wallTime : Int
  random : Int
deriving DecidableEq

/-- Request header (proto.RequestHeader), restricted to the fields read
or written by the local routing layer. -/
structure Header where
  key : Key
  endKey : Key
  cmdID : ClientCmdID
  raftID : Int
  replica : Replica
  txn : Option Txn
deriving DecidableEq

/-- Errors surfaced by the routing layer (the Go error values it
constructs or inspects). -/
inductive GoError where
  | rangeKeyMismatch (start stop : Key)
  | notFound (storeID : Nat)
  | other (code : Nat)
deriving DecidableEq

/-- Type test mirroring the switch on proto.RangeKeyMismatchError. -/
def isRangeKeyMismatch : GoError → Bool
  | GoError.rangeKeyMismatch _ _ => true
  | _ => false

/-- Store identity (proto.StoreIdent), restricted to node and store ids. -/
structure StoreIdent where
  nodeID : Nat
  storeID : Nat
deriving DecidableEq

/-- Result of Store.LookupRange: the raft id of the hosted range and the
replica record describing this store's role. -/
structure RangeInfo where
  raftID : Int
  replica : Replica

/-- A storage.Store as seen by the LocalSender: its identity and its
LookupRange interface.  Command execution is supplied separately as an
oracle when Send runs. -/
structure Store where
  ident : StoreIdent
  lookupRange : Key → Key → Option RangeInfo

/-- The LocalSender registry: the map from StoreID to Store, modelled as
an association list (kv/local_sender.go, field storeMap). -/
structure LocalSender where
  storeMap : List (Nat × Store)

/-- Association-list lookup over the store map. -/
def findStore : List (Nat × Store) → Nat → Option Store
  | [], _ => none
  | p :: m, id => if p.1 = id then some p.2 else findStore m id

/-- HasStore: existence check over the registry, no error. -/
def hasStore (ls : LocalSender) (id : Nat) : Bool :=
  (findStore ls.storeMap id).isSome

/-- GetStore: look up the store by id; a missing id yields the NotFound
error ("store d not found"). -/
def getStore (ls : LocalSender) (id : Nat) : Except GoError Store :=
  match findStore ls.storeMap id with
  | some s => Except.ok s
  | none => Except.error (GoError.notFound id)

/-- AddStore: register a store under its identifier.  A duplicate
identifier is a fatal programming error, modelled as the none result
(the Go code panics before touching the map, so no updated registry
exists on that path). -/
def addStore (ls : LocalSender) (s : Store) : Option LocalSender :=
  if hasStore ls s.ident.storeID then none
  else some ⟨ls.storeMap ++ [(s.ident.storeID, s)]⟩

/-- LookupReplica: consult each store in turn via LookupRange; return
the raft id and replica of the first range found, or a RangeKeyMismatch
error when the span is owned by no locally registered range. -/
def lookupReplica : List (Nat × Store) → Key → Key → Except GoError (Int × Replica)
  | [], start, stop => Except.error (GoError.rangeKeyMismatch start stop)
  | p :: m, start, stop =>
    match p.2.lookupRange start stop with
    | some ri => Except.ok (ri.raftID, ri.replica)
    | none => lookupReplica m start stop

/-- Narrow the transaction uncertainty bound for one attempt: when the
executing replica's node is in CertainNodes, set MaxTimestamp equal to
Timestamp (no clock uncertainty); otherwise leave the header alone. -/
def narrowTxn (h : Header) : Header :=
  match h.txn with
  | some t =>
    if t.certainNodes.contains h.replica.nodeID then
      { h with txn := some { t with maxTimestamp := t.timestamp } }
    else h
  | none => h

/-- Restore of the deferred MaxTimestamp assignment: when the original
header carried a transaction, put its MaxTimestamp back, leaving every
other field of the current header as is. -/
def restoreTxn (orig h : Header) : Header :=
  match orig.txn, h.txn with
  | some t0, some t => { h with txn := some { t with maxTimestamp := t0.maxTimestamp } }
  | _, _ => h

/-- Outcome of one body execution of the retry closure in Send: the
header as left behind, the reply error slot, the header passed to
ExecuteCmd when execution was reached, and whether the closure asked the
retry loop to continue. -/
structure AttemptResult where
  header : Header
  replyErr : Option GoError
  execInput : Option Header
  cont : Bool
deriving DecidableEq

/-- Replica resolution step of Send: when the header carries no routing
hint (no raft id or no store id), resolve the key span via lookupReplica
and on success fill the raft id and replica into the header; a header
with a hint is passed through untouched. -/
def resolveHeader (ls : LocalSender) (h0 : Header) : Except GoError Header :=
  if h0.raftID = 0 ∨ h0.replica.storeID = 0 then
    match lookupReplica ls.storeMap h0.key h0.endKey with
    | Except.ok ri => Except.ok { h0 with raftID := ri.1, replica := ri.2 }
    | Except.error e => Except.error e
  else Except.ok h0

/-- Header as left behind by a mismatching execution attempt: the
uncertainty bound restored and the replica hint cleared to the zero
value (header.Replica = proto.Replica with empty fields). -/
def clearedHeader (h1 : Header) : Header :=
  { restoreTxn h1 (narrowTxn h1) with replica := ⟨0, 0⟩ }

/-- Execution step of Send: narrow the uncertainty bound for certain
nodes, run ExecuteCmd on the resolved store, restore the bound on every
exit path (the deferred assignment), and on a RangeKeyMismatch from
execution clear the replica hint and ask the retry loop to continue. -/
def execPhase (execCmd : Nat → Header → Option GoError) (h1 : Header) : AttemptResult :=
  match execCmd h1.replica.storeID (narrowTxn h1) with
  | none => ⟨restoreTxn h1 (narrowTxn h1), none, some (narrowTxn h1), false⟩
  | some e =>
    if isRangeKeyMismatch e then
      ⟨clearedHeader h1, some e, some (narrowTxn h1), true⟩
    else ⟨restoreTxn h1 (narrowTxn h1), some e, some (narrowTxn h1), false⟩

/-- One execution of the retry closure of Send (kv/local_sender.go):
clear the reply error; resolve the replica by lookup when the routing
hint is absent; look up the target store; on a resolution error set it
on the reply and stop without retrying; otherwise execute. -/
def attemptOnce (ls : LocalSender) (execCmd : Nat → Header → Option GoError)
    (h0 : Header) : AttemptResult :=
  match resolveHeader ls h0 with
  | Except.error e => ⟨h0, some e, none, false⟩
  | Except.ok h1 =>
    match getStore ls h1.replica.storeID with
    | Except.error e => ⟨h1, some e, none, false⟩
    | Except.ok _ => execPhase execCmd h1

/-- Result of Send: the final header, the error left on the reply, and
the headers passed to ExecuteCmd, in order (the execution attempts). -/
structure SendResult where
  header : Header
  replyErr : Option GoError
  execTrace : List Header
deriving DecidableEq

/-- The retry cap of Send: MaxAttempts is two total attempts. -/
def maxAttempts : Nat := 2

/-- Modelled from the spec: the bounded retry loop of
util.RetryWithBackoff (the combinator itself is absent from the
repository sample).  Run the closure; when it asks to continue and
retry budget remains, run it again, immediately and in process; the
fuel argument counts the retries still allowed after the current
attempt. -/
def sendFrom (ls : LocalSender) (execCmd : Nat → Nat → Header → Option GoError) :
    Nat → Nat → Header → SendResult
  | attemptIdx, 0, h =>
    let r := attemptOnce ls (execCmd attemptIdx) h
    ⟨r.header, r.replyErr, r.execInput.toList⟩
  | attemptIdx, fuel + 1, h =>
    let r := attemptOnce ls (execCmd attemptIdx) h
    if r.cont then
      let s := sendFrom ls execCmd (attemptIdx + 1) fuel r.header
      ⟨s.header, s.replyErr, r.execInput.toList ++ s.execTrace⟩
    else ⟨r.header, r.replyErr, r.execInput.toList⟩

/-- Send (kv/local_sender.go): route the call with an instant retry and
a maximum of two total attempts; execCmd is the per-attempt ExecuteCmd
oracle of the resolved store (attempt index, store id, header). -/
def send (ls : LocalSender) (execCmd : Nat → Nat → Header → Option GoError)
    (h : Header) : SendResult :=
  sendFrom ls execCmd 1 (maxAttempts - 1) h

/-- A pending database API call (client.Call), reduced to the header of
its arguments and the error slot of its reply. -/
structure Call where
  args : Header
  replyErr : Option GoError
deriving DecidableEq

/-- Assign the client command identifier of a call from the clock and a
random nonce (client/call.go, resetClientCmdID).  The routing layer
never invokes this: the identifier is assigned once per logical call. -/
def resetClientCmdID (c : Call) (now rnd : Int) : Call :=
  { c with args := { c.args with cmdID := ⟨now, rnd⟩ } }

/-- A structural operation on the range set: a split of one range into
left and right, or a merge of two adjacent ranges into the merged one. -/
inductive AddrOp where
  | split (left right : RangeDescriptor)
  | merge (left merged : RangeDescriptor)
deriving DecidableEq

/-- Replace the parent range [left.StartKey, right.EndKey) by the two
halves of a valid split: the halves must share the chosen boundary and
the boundary must lie strictly inside the parent.  The ranges list is
maintained in key order. -/
def replaceSplit (left right : RangeDescriptor) :
    List RangeDescriptor → Option (List RangeDescriptor)
  | [] => none
  | d :: ds =>
    if d.startKey = left.startKey ∧ d.endKey = right.endKey then
      if left.endKey = right.startKey ∧ keyLess d.startKey left.endKey = true ∧
          keyLess left.endKey d.endKey = true then
        some (left :: right :: ds)
      else none
    else (replaceSplit left right ds).map (fun rs => d :: rs)

/-- Replace two adjacent ranges by the merged range that covers both:
the first must be exactly the left range and the second must span from
left.EndKey to merged.EndKey, with merged starting where left starts. -/
def replaceMerge (left merged : RangeDescriptor) :
    List RangeDescriptor → Option (List RangeDescriptor)
  | [] => none
  | [_] => none
  | a :: b :: ds =>
    if a.startKey = left.startKey ∧ a.endKey = left.endKey ∧
        merged.startKey = a.startKey ∧ b.startKey = left.endKey ∧
        b.endKey = merged.endKey then
      some (merged :: ds)
    else (replaceMerge left merged (b :: ds)).map (fun rs => a :: rs)

/-- The system state tracked across structural operations: the live
ranges (in key order) and the addressing index. -/
structure SysState where
  ranges : List RangeDescriptor
  idx : IndexState
deriving DecidableEq

/-- Apply one structural operation: transform the range set when the
operation is valid, and apply the addressing writes that the updater
computes for it; an invalid operation yields none. -/
def applyAddrOp (s : SysState) : AddrOp → Option SysState
  | AddrOp.split l r =>
    match replaceSplit l r s.ranges, SplitRangeAddressing l r with
    | some rs, Except.ok ops => some ⟨rs, applyOps s.idx ops⟩
    | _, _ => none
  | AddrOp.merge l m =>
    match replaceMerge l m s.ranges, MergeRangeAddressing l m with
    | some rs, Except.ok ops => some ⟨rs, applyOps s.idx ops⟩
    | _, _ => none

/-- Apply a sequence of structural operations in order; the sequence is
valid when every operation applies. -/
def applyAddrOps (s : SysState) : List AddrOp → Option SysState
  | [] => some s
  | op :: ops =>
    match applyAddrOp s op with
    | some s' => applyAddrOps s' ops
    | none => none

/-- The single full-keyspace range the system starts from. -/
def initDesc : RangeDescriptor := ⟨1, keyMin, keyMax, []⟩

/-- The initial system state: one range covering [KeyMin, KeyMax) and
the addressing records for it. -/
def initState : SysState := ⟨[initDesc], applyOps [] (descRecordOps initDesc)⟩

/-- The descriptors in the list tile the keyspace from the given low key
up to KeyMax: each starts where the previous ended, every span is
nonempty, and the last one ends at KeyMax. -/
def chainFrom : Key → List RangeDescriptor → Prop
  | lo, [] => lo = keyMax
  | lo, d :: ds => d.startKey = lo ∧ keyLess lo d.endKey = true ∧ chainFrom d.endKey ds

/-- A strictly increasing run of end keys from the given low key that
finishes at KeyMax: the spans inferred from consecutive entries
partition [lo, KeyMax) with no gap and no overlap. -/
def endChain : Key → List Key → Prop
  | lo, [] => lo = keyMax
  | lo, e :: es => keyLess lo e = true ∧ endChain e es

/-- The level-2 records of the index carve the keyspace into a partition:
some strictly increasing run of end keys ending at KeyMax carries
exactly the level-2 records present in the index. -/
def level2Partition (idx : IndexState) : Prop :=
  ∃ es : List Key, endChain keyMin es ∧
    ∀ e : Key, (idxLookup idx (level2Pre ++ e)).isSome = true ↔ e ∈ es

/-- The inductive invariant: the live ranges tile [KeyMin, KeyMax) and
the level-2 records of the index are exactly the records of the live
ranges' end keys. -/
def goodState (s : SysState) : Prop :=
  chainFrom keyMin s.ranges ∧
  ∀ e : Key, (idxLookup s.idx (level2Pre ++ e)).isSome = true ↔
    e ∈ s.ranges.map (fun d => d.endKey)

/-- Concrete store used by the witnesses: it hosts the full keyspace as
raft range 7 and answers every lookup with its own replica. -/
def demoStore : Store :=
  ⟨⟨4, 9⟩, fun _ _ => some ⟨7, ⟨4, 9⟩⟩⟩

/-- A second concrete store carrying the same store id 9, for the
duplicate-registration witness. -/
def demoStoreDup : Store :=
  ⟨⟨5, 9⟩, fun _ _ => none⟩

/-- A concrete store that hosts no range at all. -/
def demoStoreEmpty : Store :=
  ⟨⟨4, 9⟩, fun _ _ => none⟩

/-- Concrete registry holding demoStore under id 9. -/
def demoLS : LocalSender := ⟨[(9, demoStore)]⟩

/-- Concrete registry whose only store hosts no range. -/
def demoLSEmpty : LocalSender := ⟨[(9, demoStoreEmpty)]⟩

/-- Concrete transaction whose CertainNodes set contains node 4. -/
def demoTxn : Txn := ⟨⟨10, 0⟩, ⟨12, 0⟩, [4]⟩

/-- Concrete header without a routing hint. -/
def demoHeader : Header := ⟨[97], [98], ⟨3, 5⟩, 0, ⟨0, 0⟩, none⟩

/-- Concrete header carrying a routing hint to store 9 and demoTxn. -/
def demoHeaderHint : Header := ⟨[97], [98], ⟨3, 5⟩, 7, ⟨4, 9⟩, some demoTxn⟩

/-- Concrete header carrying a routing hint to the unregistered store 8. -/
def demoHeaderBadStore : Header := ⟨[97], [98], ⟨3, 5⟩, 7, ⟨4, 8⟩, none⟩

/-- Execution oracle that always reports a routing mismatch. -/
def demoExecMismatch : Nat → Nat → Header → Option GoError :=
  fun _ _ h => some (GoError.rangeKeyMismatch h.key h.endKey)

/-- Execution oracle that always succeeds. -/
def demoExecOk : Nat → Nat → Header → Option GoError :=
  fun _ _ _ => none

/-- Concrete split descriptors for the addressing witnesses: the full
keyspace divided at the ordinary key "a". -/
def demoLeft : RangeDescriptor := ⟨2, keyMin, [97], []⟩

/-- Right half of the concrete split at "a". -/
def demoRight : RangeDescriptor := ⟨3, [97], keyMax, []⟩

/-- Concrete merged descriptor recombining demoLeft and demoRight. -/
def demoMerged : RangeDescriptor := ⟨4, keyMin, keyMax, []⟩

/-- Concrete left half whose end key lies inside the level-1 region. -/
def demoLeftMeta1 : RangeDescriptor := ⟨2, keyMin, level1Pre ++ [97], []⟩

/-- Concrete demo sequence of structural operations: split at "a", then
split the right half at "m", then merge the two right pieces back. -/
def demoOps : List AddrOp :=
  [AddrOp.split demoLeft demoRight,
   AddrOp.split ⟨5, [97], [109], []⟩ ⟨6, [109], keyMax, []⟩,
   AddrOp.merge ⟨5, [97], [109], []⟩ ⟨8, [97], keyMax, []⟩]

/-- The state reached by the demo sequence. -/
def demoFinal : SysState := (applyAddrOps initState demoOps).getD initState

/-! Helper lemmas on the key order. -/

theorem keyLess_irrefl : ∀ k : Key, keyLess k k = false
  | [] => rfl
  | a :: as => by
    simp only [keyLess]
    rw [if_neg (Nat.lt_irrefl a), if_neg (Nat.lt_irrefl a)]
    exact keyLess_irrefl as

theorem keyLess_trans : ∀ a b c : Key, keyLess a b = true → keyLess b c = true →
    keyLess a c = true
  | [], [], _, hab, _ => by simp [keyLess] at hab
  | [], _ :: _, [], _, hbc => by simp [keyLess] at hbc
  | [], _ :: _, _ :: _, _, _ => rfl
  | _ :: _, [], _, hab, _ => by simp [keyLess] at hab
  | _ :: _, _ :: _, [], _, hbc => by simp [keyLess] at hbc
  | x :: xs, y :: ys, z :: zs, hab, hbc => by
    simp only [keyLess] at hab hbc ⊢
    by_cases hxy : x < y
    · by_cases hyz : y < z
      · rw [if_pos (Nat.lt_trans hxy hyz)]
      · rw [if_neg hyz] at hbc
        by_cases hzy : z < y
        · rw [if_pos hzy] at hbc; simp at hbc
        · have hyz' : y = z := Nat.le_antisymm (Nat.le_of_not_lt hzy) (Nat.le_of_not_lt hyz)
          rw [if_pos (hyz' ▸ hxy)]
    · rw [if_neg hxy] at hab
      by_cases hyx : y < x
      · rw [if_pos hyx] at hab; simp at hab
      · rw [if_neg hyx] at hab
        have hxy' : x = y := Nat.le_antisymm (Nat.le_of_not_lt hyx) (Nat.le_of_not_lt hxy)
        by_cases hyz : y < z
        · rw [if_pos (hxy' ▸ hyz)]
        · rw [if_neg hyz] at hbc
          by_cases hzy : z < y
          · rw [if_pos hzy] at hbc; simp at hbc
          · rw [if_neg hzy] at hbc
            rw [if_neg (hxy' ▸ hyz), if_neg (fun h => hzy (hxy' ▸ h))]
            exact keyLess_trans xs ys zs hab hbc

theorem keyLess_ne {a b : Key} (h : keyLess a b = true) : a ≠ b := by
  intro he
  rw [he, keyLess_irrefl] at h
  simp at h

theorem keyHasPre_iff : ∀ p k : Key, keyHasPre p k = true ↔ ∃ r, k = p ++ r
  | [], k => by simp [keyHasPre]
  | p :: ps, [] => by simp [keyHasPre]
  | p :: ps, x :: k => by
    simp only [keyHasPre, Bool.and_eq_true, decide_eq_true_eq, keyHasPre_iff ps k]
    constructor
    · rintro ⟨rfl, r, rfl⟩
      exact ⟨r, rfl⟩
    · rintro ⟨r, hr⟩
      rw [List.cons_append] at hr
      injection hr with h1 h2
      exact ⟨h1.symm, r, h2⟩

/-! Helper lemmas on the addressing index. -/

theorem idxLookup_del : ∀ (st : IndexState) (k k' : Key),
    idxLookup (idxDel st k) k' = if k' = k then none else idxLookup st k'
  | [], k, k' => by simp [idxDel, idxLookup]
  | p :: st, k, k' => by
    simp only [idxDel]
    by_cases h : p.1 = k
    · rw [if_pos h, idxLookup_del st k k']
      by_cases h' : k' = k
      · rw [if_pos h', if_pos h']
      · rw [if_neg h', if_neg h']
        simp only [idxLookup]
        rw [if_neg (fun hk => h' (hk.symm.trans h))]
    · rw [if_neg h]
      simp only [idxLookup]
      by_cases hp : p.1 = k'
      · rw [if_pos hp, if_pos hp, if_neg (fun h2 => h (hp.trans h2))]
      · rw [if_neg hp, if_neg hp, idxLookup_del st k k']

theorem idxLookup_put (st : IndexState) (k k' : Key) (d : RangeDescriptor) :
    idxLookup (applyOp st (IndexOp.put k d)) k' =
      if k' = k then some d else idxLookup st k' := by
  simp only [applyOp, idxLookup]
  by_cases h : k' = k
  · rw [if_pos h.symm, if_pos h]
  · rw [if_neg (fun e => h e.symm), idxLookup_del st k k', if_neg h, if_neg h]

theorem applyOps_append (st : IndexState) (a b : List IndexOp) :
    applyOps st (a ++ b) = applyOps (applyOps st a) b := by
  simp [applyOps, List.foldl_append]

theorem idxLookup_descOps (st : IndexState) (d : RangeDescriptor) (k : Key) :
    idxLookup (applyOps st (descRecordOps d)) k =
      if k ∈ recordKeysOfEnd d.endKey then some d else idxLookup st k := by
  by_cases hm : inMetaPreRegion d.endKey
  · simp only [descRecordOps, recordKeysOfEnd, hm, if_true, applyOps, List.foldl_cons,
      List.foldl_nil]
    rw [idxLookup_put, idxLookup_put]
    by_cases h1 : k = level1Pre ++ d.endKey <;> by_cases h2 : k = level2Pre ++ d.endKey <;>
      simp [h1, h2]
  · simp only [descRecordOps, recordKeysOfEnd, hm, Bool.false_eq_true, if_false,
      applyOps, List.foldl_cons, List.foldl_nil, List.mem_singleton]
    exact idxLookup_put st (level2Pre ++ d.endKey) k d

theorem idxLookup_delOps (st : IndexState) (e k : Key) :
    idxLookup (applyOps st (delRecordOps e)) k =
      if k ∈ recordKeysOfEnd e then none else idxLookup st k := by
  by_cases hm : inMetaPreRegion e
  · simp only [delRecordOps, recordKeysOfEnd, hm, if_true, applyOps, List.foldl_cons,
      List.foldl_nil, applyOp]
    rw [idxLookup_del, idxLookup_del]
    by_cases h1 : k = level1Pre ++ e <;> by_cases h2 : k = level2Pre ++ e <;>
      simp [h1, h2]
  · simp only [delRecordOps, recordKeysOfEnd, hm, Bool.false_eq_true, if_false,
      applyOps, List.foldl_cons, List.foldl_nil, List.mem_singleton, applyOp]
    exact idxLookup_del st (level2Pre ++ e) k

/-! Shape lemmas on record keys. -/

theorem l2_append_inj {a b : Key} : level2Pre ++ a = level2Pre ++ b ↔ a = b := by
  simp [level2Pre]

theorem l1_append_inj {a b : Key} : level1Pre ++ a = level1Pre ++ b ↔ a = b := by
  simp [level1Pre]

theorem l1_ne_l2 (a b : Key) : level1Pre ++ a ≠ level2Pre ++ b := by
  simp [level1Pre, level2Pre]

theorem l2_mem_recordKeys {x e : Key} : level2Pre ++ x ∈ recordKeysOfEnd e ↔ x = e := by
  by_cases hm : inMetaPreRegion e <;>
    simp [recordKeysOfEnd, hm, level1Pre, level2Pre]

theorem recordKeys_of_end_eq {e e' : Key} (h : e = e') :
    recordKeysOfEnd e = recordKeysOfEnd e' := by rw [h]

theorem mem_recordKeysOfEnd {k e : Key} :
    k ∈ recordKeysOfEnd e ↔
      k = level2Pre ++ e ∨ (inMetaPreRegion e = true ∧ k = level1Pre ++ e) := by
  by_cases hm : inMetaPreRegion e <;> simp [recordKeysOfEnd, hm]

/-! Frame lemmas for the header transformations of Send. -/

theorem narrowTxn_restore (h : Header) : restoreTxn h (narrowTxn h) = h := by
  obtain ⟨k, ek, cid, rid, rep, txn⟩ := h
  cases txn with
  | none => rfl
  | some t =>
    obtain ⟨ts, mts, cn⟩ := t
    by_cases hc : rep.nodeID ∈ cn <;> simp [narrowTxn, restoreTxn, hc]

theorem narrowTxn_key (h : Header) : (narrowTxn h).key = h.key := by
  unfold narrowTxn
  cases h.txn with
  | none => rfl
  | some t => by_cases hc : h.replica.nodeID ∈ t.certainNodes <;> simp [hc]

theorem narrowTxn_endKey (h : Header) : (narrowTxn h).endKey = h.endKey := by
  unfold narrowTxn
  cases h.txn with
  | none => rfl
  | some t => by_cases hc : h.replica.nodeID ∈ t.certainNodes <;> simp [hc]

theorem narrowTxn_cmdID (h : Header) : (narrowTxn h).cmdID = h.cmdID := by
  unfold narrowTxn
  cases h.txn with
  | none => rfl
  | some t => by_cases hc : h.replica.nodeID ∈ t.certainNodes <;> simp [hc]

theorem narrowTxn_replica (h : Header) : (narrowTxn h).replica = h.replica := by
  unfold narrowTxn
  cases h.txn with
  | none => rfl
  | some t => by_cases hc : h.replica.nodeID ∈ t.certainNodes <;> simp [hc]

theorem restoreTxn_key (orig h : Header) : (restoreTxn orig h).key = h.key := by
  unfold restoreTxn
  cases orig.txn <;> cases h.txn <;> rfl

theorem restoreTxn_endKey (orig h : Header) : (restoreTxn orig h).endKey = h.endKey := by
  unfold restoreTxn
  cases orig.txn <;> cases h.txn <;> rfl

theorem restoreTxn_cmdID (orig h : Header) : (restoreTxn orig h).cmdID = h.cmdID := by
  unfold restoreTxn
  cases orig.txn <;> cases h.txn <;> rfl

/-! Characterization lemmas for the phases of Send. -/

theorem execPhase_execInput (e : Nat → Header → Option GoError) (h1 : Header) :
    (execPhase e h1).execInput = some (narrowTxn h1) := by
  unfold execPhase
  cases e h1.replica.storeID (narrowTxn h1) with
  | none => rfl
  | some err => by_cases hm : isRangeKeyMismatch err <;> simp [hm]

theorem clearedHeader_txn (h1 : Header) : (clearedHeader h1).txn = h1.txn := by
  show (restoreTxn h1 (narrowTxn h1)).txn = h1.txn
  rw [narrowTxn_restore]

theorem clearedHeader_cmdID (h1 : Header) : (clearedHeader h1).cmdID = h1.cmdID := by
  show (restoreTxn h1 (narrowTxn h1)).cmdID = h1.cmdID
  rw [narrowTxn_restore]

theorem execPhase_txn (e : Nat → Header → Option GoError) (h1 : Header) :
    (execPhase e h1).header.txn = h1.txn := by
  unfold execPhase
  cases e h1.replica.storeID (narrowTxn h1) with
  | none => simp [narrowTxn_restore]
  | some err =>
    by_cases hm : isRangeKeyMismatch err <;>
      simp [hm, narrowTxn_restore, clearedHeader_txn]

theorem execPhase_cmdID (e : Nat → Header → Option GoError) (h1 : Header) :
    (execPhase e h1).header.cmdID = h1.cmdID := by
  unfold execPhase
  cases e h1.replica.storeID (narrowTxn h1) with
  | none => simp [restoreTxn_cmdID, narrowTxn_cmdID]
  | some err =>
    by_cases hm : isRangeKeyMismatch err <;>
      simp [hm, restoreTxn_cmdID, narrowTxn_cmdID, clearedHeader_cmdID]

theorem clearedHeader_key (h1 : Header) : (clearedHeader h1).key = h1.key := by
  show (restoreTxn h1 (narrowTxn h1)).key = h1.key
  rw [restoreTxn_key, narrowTxn_key]

theorem clearedHeader_endKey (h1 : Header) : (clearedHeader h1).endKey = h1.endKey := by
  show (restoreTxn h1 (narrowTxn h1)).endKey = h1.endKey
  rw [restoreTxn_endKey, narrowTxn_endKey]

theorem execPhase_mismatch (e : Nat → Header → Option GoError) (h1 : Header)
    (hex : e h1.replica.storeID (narrowTxn h1) =
      some (GoError.rangeKeyMismatch (narrowTxn h1).key (narrowTxn h1).endKey)) :
    execPhase e h1 =
      ⟨clearedHeader h1,
       some (GoError.rangeKeyMismatch h1.key h1.endKey), some (narrowTxn h1), true⟩ := by
  simp only [execPhase, hex, isRangeKeyMismatch, if_true, narrowTxn_key, narrowTxn_endKey]

theorem resolveHeader_hint (ls : LocalSender) (h : Header)
    (hRaft : ¬ h.raftID = 0) (hSid : ¬ h.replica.storeID = 0) :
    resolveHeader ls h = Except.ok h := by
  unfold resolveHeader
  rw [if_neg (fun hor => hor.elim hRaft hSid)]

theorem resolveHeader_lookup (ls : LocalSender) (h : Header) (rid : Int) (r : Replica)
    (hHint : h.raftID = 0 ∨ h.replica.storeID = 0)
    (hLk : lookupReplica ls.storeMap h.key h.endKey = Except.ok (rid, r)) :
    resolveHeader ls h = Except.ok { h with raftID := rid, replica := r } := by
  unfold resolveHeader
  rw [if_pos hHint, hLk]

theorem resolveHeader_err (ls : LocalSender) (h : Header) (e : GoError)
    (hHint : h.raftID = 0 ∨ h.replica.storeID = 0)
    (hLk : lookupReplica ls.storeMap h.key h.endKey = Except.error e) :
    resolveHeader ls h = Except.error e := by
  unfold resolveHeader
  rw [if_pos hHint, hLk]

theorem resolveHeader_frame (ls : LocalSender) (h h1 : Header)
    (hres : resolveHeader ls h = Except.ok h1) :
    h1.key = h.key ∧ h1.endKey = h.endKey ∧ h1.cmdID = h.cmdID ∧ h1.txn = h.txn := by
  unfold resolveHeader at hres
  by_cases hc : h.raftID = 0 ∨ h.replica.storeID = 0
  · rw [if_pos hc] at hres
    cases hlk : lookupReplica ls.storeMap h.key h.endKey with
    | ok ri =>
      rw [hlk] at hres
      injection hres with hres
      rw [hres.symm]
      exact ⟨rfl, rfl, rfl, rfl⟩
    | error e => rw [hlk] at hres; cases hres
  · rw [if_neg hc] at hres
    injection hres with hres
    rw [hres.symm]
    exact ⟨rfl, rfl, rfl, rfl⟩

theorem getStore_of_hasStore (ls : LocalSender) (id : Nat)
    (h : hasStore ls id = true) : ∃ s, getStore ls id = Except.ok s := by
  unfold hasStore at h
  cases hf : findStore ls.storeMap id with
  | none => rw [hf] at h; simp at h
  | some s => exact ⟨s, by simp [getStore, hf]⟩

theorem attemptOnce_res_err (ls : LocalSender) (e : Nat → Header → Option GoError)
    (h : Header) (err : GoError) (hres : resolveHeader ls h = Except.error err) :
    attemptOnce ls e h = ⟨h, some err, none, false⟩ := by
  simp [attemptOnce, hres]

theorem attemptOnce_store_err (ls : LocalSender) (e : Nat → Header → Option GoError)
    (h h1 : Header) (err : GoError) (hres : resolveHeader ls h = Except.ok h1)
    (hgs : getStore ls h1.replica.storeID = Except.error err) :
    attemptOnce ls e h = ⟨h1, some err, none, false⟩ := by
  simp [attemptOnce, hres, hgs]

theorem attemptOnce_exec (ls : LocalSender) (e : Nat → Header → Option GoError)
    (h h1 : Header) (s : Store) (hres : resolveHeader ls h = Except.ok h1)
    (hgs : getStore ls h1.replica.storeID = Except.ok s) :
    attemptOnce ls e h = execPhase e h1 := by
  simp [attemptOnce, hres, hgs]

theorem attemptOnce_txn (ls : LocalSender) (e : Nat → Header → Option GoError)
    (h : Header) : (attemptOnce ls e h).header.txn = h.txn := by
  cases hres : resolveHeader ls h with
  | error err => rw [attemptOnce_res_err ls e h err hres]
  | ok h1 =>
    obtain ⟨_, _, _, htxn⟩ := resolveHeader_frame ls h h1 hres
    cases hgs : getStore ls h1.replica.storeID with
    | error err =>
      rw [attemptOnce_store_err ls e h h1 err hres hgs]
      exact htxn
    | ok s =>
      rw [attemptOnce_exec ls e h h1 s hres hgs, execPhase_txn]
      exact htxn

theorem attemptOnce_cmdID (ls : LocalSender) (e : Nat → Header → Option GoError)
    (h : Header) :
    (attemptOnce ls e h).header.cmdID = h.cmdID ∧
    ∀ hh, (attemptOnce ls e h).execInput = some hh → hh.cmdID = h.cmdID := by
  cases hres : resolveHeader ls h with
  | error err =>
    rw [attemptOnce_res_err ls e h err hres]
    exact ⟨rfl, fun hh hc => by cases hc⟩
  | ok h1 =>
    obtain ⟨_, _, hcid, _⟩ := resolveHeader_frame ls h h1 hres
    cases hgs : getStore ls h1.replica.storeID with
    | error err =>
      rw [attemptOnce_store_err ls e h h1 err hres hgs]
      exact ⟨hcid, fun hh hc => by cases hc⟩
    | ok s =>
      rw [attemptOnce_exec ls e h h1 s hres hgs]
      refine ⟨(execPhase_cmdID e h1).trans hcid, fun hh hc => ?_⟩
      rw [execPhase_execInput] at hc
      injection hc with hc
      rw [hc.symm, narrowTxn_cmdID]
      exact hcid

theorem attemptOnce_no_exec_no_retry (ls : LocalSender)
    (e : Nat → Header → Option GoError) (h : Header)
    (hno : (attemptOnce ls e h).execInput = none) :
    (attemptOnce ls e h).cont = false := by
  cases hres : resolveHeader ls h with
  | error err => rw [attemptOnce_res_err ls e h err hres]
  | ok h1 =>
    cases hgs : getStore ls h1.replica.storeID with
    | error err => rw [attemptOnce_store_err ls e h h1 err hres hgs]
    | ok s =>
      rw [attemptOnce_exec ls e h h1 s hres hgs] at hno
      rw [execPhase_execInput] at hno
      cases hno

theorem attemptOnce_mismatch_total (ls : LocalSender)
    (execA : Nat → Header → Option GoError) (h h1 : Header) (s : Store)
    (hres : resolveHeader ls h = Except.ok h1)
    (hgs : getStore ls h1.replica.storeID = Except.ok s)
    (hex : ∀ hh, execA h1.replica.storeID hh =
      some (GoError.rangeKeyMismatch hh.key hh.endKey)) :
    attemptOnce ls execA h =
      ⟨clearedHeader h1, some (GoError.rangeKeyMismatch h1.key h1.endKey),
       some (narrowTxn h1), true⟩ :=
  (attemptOnce_exec ls execA h h1 s hres hgs).trans
    (execPhase_mismatch execA h1 (hex (narrowTxn h1)))

/-! Equation lemmas for the retry loop of Send. -/

theorem sendFrom_zero (ls : LocalSender) (execCmd : Nat → Nat → Header → Option GoError)
    (i : Nat) (h : Header) :
    sendFrom ls execCmd i 0 h =
      ⟨(attemptOnce ls (execCmd i) h).header, (attemptOnce ls (execCmd i) h).replyErr,
        (attemptOnce ls (execCmd i) h).execInput.toList⟩ := rfl

theorem sendFrom_succ_cont (ls : LocalSender)
    (execCmd : Nat → Nat → Header → Option GoError) (i fuel : Nat) (h : Header)
    (hc : (attemptOnce ls (execCmd i) h).cont = true) :
    sendFrom ls execCmd i (fuel + 1) h =
      ⟨(sendFrom ls execCmd (i + 1) fuel (attemptOnce ls (execCmd i) h).header).header,
       (sendFrom ls execCmd (i + 1) fuel (attemptOnce ls (execCmd i) h).header).replyErr,
       (attemptOnce ls (execCmd i) h).execInput.toList ++
         (sendFrom ls execCmd (i + 1) fuel
           (attemptOnce ls (execCmd i) h).header).execTrace⟩ := by
  simp [sendFrom, hc]

theorem sendFrom_succ_stop (ls : LocalSender)
    (execCmd : Nat → Nat → Header → Option GoError) (i fuel : Nat) (h : Header)
    (hc : (attemptOnce ls (execCmd i) h).cont = false) :
    sendFrom ls execCmd i (fuel + 1) h =
      ⟨(attemptOnce ls (execCmd i) h).header, (attemptOnce ls (execCmd i) h).replyErr,
        (attemptOnce ls (execCmd i) h).execInput.toList⟩ := by
  simp [sendFrom, hc]

theorem sendFrom_txn (ls : LocalSender)
    (execCmd : Nat → Nat → Header → Option GoError) :
    ∀ (fuel i : Nat) (h : Header),
      (sendFrom ls execCmd i fuel h).header.txn = h.txn
  | 0, i, h => by
    rw [sendFrom_zero]
    exact attemptOnce_txn ls (execCmd i) h
  | fuel + 1, i, h => by
    cases hc : (attemptOnce ls (execCmd i) h).cont with
    | false =>
      rw [sendFrom_succ_stop ls execCmd i fuel h hc]
      exact attemptOnce_txn ls (execCmd i) h
    | true =>
      rw [sendFrom_succ_cont ls execCmd i fuel h hc]
      show (sendFrom ls execCmd (i + 1) fuel
        (attemptOnce ls (execCmd i) h).header).header.txn = h.txn
      rw [sendFrom_txn ls execCmd fuel (i + 1) ((attemptOnce ls (execCmd i) h).header)]
      exact attemptOnce_txn ls (execCmd i) h

theorem send_two_mismatches (ls : LocalSender)
    (execCmd : Nat → Nat → Header → Option GoError) (h h1 h3 : Header) (s s' : Store)
    (hres1 : resolveHeader ls h = Except.ok h1)
    (hgs1 : getStore ls h1.replica.storeID = Except.ok s)
    (hres2 : resolveHeader ls (clearedHeader h1) = Except.ok h3)
    (hgs2 : getStore ls h3.replica.storeID = Except.ok s')
    (hExec : ∀ i sid hh, execCmd i sid hh =
      some (GoError.rangeKeyMismatch hh.key hh.endKey)) :
    (send ls execCmd h).replyErr =
      some (GoError.rangeKeyMismatch h3.key h3.endKey) ∧
    (send ls execCmd h).execTrace.length = 2 := by
  have hat1 := attemptOnce_mismatch_total ls (execCmd 1) h h1 s hres1 hgs1
    (fun hh => hExec 1 h1.replica.storeID hh)
  have hat2 := attemptOnce_mismatch_total ls (execCmd 2) (clearedHeader h1) h3 s'
    hres2 hgs2 (fun hh => hExec 2 h3.replica.storeID hh)
  have hcont1 : (attemptOnce ls (execCmd 1) h).cont = true := by rw [hat1]
  have hsend : send ls execCmd h =
      ⟨(sendFrom ls execCmd 2 0 (attemptOnce ls (execCmd 1) h).header).header,
       (sendFrom ls execCmd 2 0 (attemptOnce ls (execCmd 1) h).header).replyErr,
       (attemptOnce ls (execCmd 1) h).execInput.toList ++
         (sendFrom ls execCmd 2 0 (attemptOnce ls (execCmd 1) h).header).execTrace⟩ :=
    sendFrom_succ_cont ls execCmd 1 0 h hcont1
  rw [hsend, sendFrom_zero, hat1]
  rw [show (⟨clearedHeader h1, some (GoError.rangeKeyMismatch h1.key h1.endKey),
      some (narrowTxn h1), true⟩ : AttemptResult).header = clearedHeader h1 from rfl]
  rw [hat2]
  exact ⟨rfl, rfl⟩

/-! Claim theorems for the Local Sender. -/

/-- C1: for a call that resolves locally and whose execution reports a
routing mismatch on the first attempt and again on the second, Send
leaves the mismatch error on the reply after exactly two execution
attempts, never a third. -/
theorem send_retry_bound (ls : LocalSender)
    (execCmd : Nat → Nat → Header → Option GoError) (h : Header) (rid : Int)
    (r : Replica)
    (hHint : h.raftID = 0 ∨ h.replica.storeID = 0)
    (hLk : lookupReplica ls.storeMap h.key h.endKey = Except.ok (rid, r))
    (hStore : hasStore ls r.storeID = true)
    (hExec : ∀ i sid hh, execCmd i sid hh =
      some (GoError.rangeKeyMismatch hh.key hh.endKey)) :
    (send ls execCmd h).replyErr =
      some (GoError.rangeKeyMismatch h.key h.endKey) ∧
    (send ls execCmd h).execTrace.length = 2 := by
  obtain ⟨s, hgs⟩ := getStore_of_hasStore ls r.storeID hStore
  have hres1 : resolveHeader ls h = Except.ok { h with raftID := rid, replica := r } :=
    resolveHeader_lookup ls h rid r hHint hLk
  have hck : (clearedHeader { h with raftID := rid, replica := r }).key = h.key := by
    rw [clearedHeader_key]
  have hce : (clearedHeader { h with raftID := rid, replica := r }).endKey = h.endKey := by
    rw [clearedHeader_endKey]
  have hres2 : resolveHeader ls (clearedHeader { h with raftID := rid, replica := r }) =
      Except.ok { clearedHeader { h with raftID := rid, replica := r } with
        raftID := rid, replica := r } := by
    apply resolveHeader_lookup
    · exact Or.inr rfl
    · rw [hck, hce]
      exact hLk
  obtain ⟨hrep, hlen⟩ := send_two_mismatches ls execCmd h
    { h with raftID := rid, replica := r }
    { clearedHeader { h with raftID := rid, replica := r } with
      raftID := rid, replica := r } s s hres1 hgs hres2 hgs hExec
  refine ⟨?_, hlen⟩
  rw [hrep]
  have hk3 : ({ clearedHeader { h with raftID := rid, replica := r } with
      raftID := rid, replica := r } : Header).key = h.key := hck
  have he3 : ({ clearedHeader { h with raftID := rid, replica := r } with
      raftID := rid, replica := r } : Header).endKey = h.endKey := hce
  rw [hk3, he3]

/-- Witness for C1 at a concrete registry, header, and mismatching
execution oracle. -/
theorem send_retry_bound_witness :
    (send demoLS demoExecMismatch demoHeader).replyErr =
      some (GoError.rangeKeyMismatch [97] [98]) ∧
    (send demoLS demoExecMismatch demoHeader).execTrace.length = 2 :=
  send_retry_bound demoLS demoExecMismatch demoHeader 7 ⟨4, 9⟩ (Or.inl rfl) rfl rfl
    (fun _ _ _ => rfl)

/-- C6: registering a store whose identifier is already present is a
fatal error: AddStore panics before touching the map (no updated
registry exists), and the registry keeps the first registration's
handle for that identifier. -/
theorem addStore_duplicate_fatal (ls : LocalSender) (s : Store)
    (hDup : hasStore ls s.ident.storeID = true) :
    addStore ls s = none ∧ ∃ s0, getStore ls s.ident.storeID = Except.ok s0 :=
  ⟨by simp [addStore, hDup], getStore_of_hasStore ls s.ident.storeID hDup⟩

/-- Witness for C6: a registry already holding store id 9 rejects a
second store with id 9 and keeps answering lookups for id 9. -/
theorem addStore_duplicate_fatal_witness :
    hasStore demoLS demoStoreDup.ident.storeID = true ∧
    (addStore demoLS demoStoreDup = none ∧
      ∃ s0, getStore demoLS demoStoreDup.ident.storeID = Except.ok s0) :=
  ⟨rfl, addStore_duplicate_fatal demoLS demoStoreDup rfl⟩

/-- C7: for a transactional call whose executing replica's node is in
CertainNodes, the header passed to execution carries MaxTimestamp
narrowed to the transaction's exact Timestamp, the attempt restores the
original transaction record before returning on every exit path, and
the retry loop of Send never changes the header's transaction across
attempts, so the narrowed bound cannot leak into a retry. -/
theorem send_uncertainty_scoped (ls : LocalSender)
    (execA : Nat → Header → Option GoError)
    (execCmd : Nat → Nat → Header → Option GoError) (h : Header) (t : Txn)
    (hTxn : h.txn = some t)
    (hRaft : ¬ h.raftID = 0) (hSid : ¬ h.replica.storeID = 0)
    (hStore : hasStore ls h.replica.storeID = true)
    (hCertain : h.replica.nodeID ∈ t.certainNodes) :
    (attemptOnce ls execA h).execInput =
      some { h with txn := some { t with maxTimestamp := t.timestamp } } ∧
    (attemptOnce ls execA h).header.txn = h.txn ∧
    ∀ (fuel i : Nat) (h' : Header),
      (sendFrom ls execCmd i fuel h').header.txn = h'.txn := by
  obtain ⟨s, hgs⟩ := getStore_of_hasStore ls h.replica.storeID hStore
  have hres := resolveHeader_hint ls h hRaft hSid
  have hat := attemptOnce_exec ls execA h h s hres hgs
  have hnarrow : narrowTxn h =
      { h with txn := some { t with maxTimestamp := t.timestamp } } := by
    unfold narrowTxn
    rw [hTxn]
    simp [hCertain]
  refine ⟨?_, attemptOnce_txn ls execA h, sendFrom_txn ls execCmd⟩
  rw [hat, execPhase_execInput, hnarrow]

/-- Witness for C7 at a concrete transactional header routed to a
certain node. -/
theorem send_uncertainty_scoped_witness :
    (attemptOnce demoLS (demoExecOk 1) demoHeaderHint).execInput =
      some { demoHeaderHint with
        txn := some { demoTxn with maxTimestamp := demoTxn.timestamp } } ∧
    (attemptOnce demoLS (demoExecOk 1) demoHeaderHint).header.txn =
      demoHeaderHint.txn ∧
    ∀ (fuel i : Nat) (h' : Header),
      (sendFrom demoLS demoExecOk i fuel h').header.txn = h'.txn :=
  send_uncertainty_scoped demoLS (demoExecOk 1) demoExecOk demoHeaderHint demoTxn
    rfl (by decide) (by decide) rfl (by decide)

/-- C8: GetStore returns the registered store exactly when the id is in
the registry and the NotFound error otherwise; and in Send a NotFound
from the store lookup is set on the reply and surfaced after a single
attempt, with no execution and no retry. -/
theorem getStore_spec_send_no_retry (ls : LocalSender)
    (execCmd : Nat → Nat → Header → Option GoError) (h : Header)
    (hRaft : ¬ h.raftID = 0) (hSid : ¬ h.replica.storeID = 0)
    (hAbs : hasStore ls h.replica.storeID = false) :
    (∀ (ls2 : LocalSender) (id : Nat) (s : Store),
        getStore ls2 id = Except.ok s ↔ findStore ls2.storeMap id = some s) ∧
    (∀ (ls2 : LocalSender) (id : Nat),
        hasStore ls2 id = false →
          getStore ls2 id = Except.error (GoError.notFound id)) ∧
    send ls execCmd h = ⟨h, some (GoError.notFound h.replica.storeID), []⟩ := by
  have hspec : ∀ (ls2 : LocalSender) (id : Nat) (s : Store),
      getStore ls2 id = Except.ok s ↔ findStore ls2.storeMap id = some s := by
    intro ls2 id s
    unfold getStore
    cases hf : findStore ls2.storeMap id with
    | none => simp
    | some s' => simp
  have hnf : ∀ (ls2 : LocalSender) (id : Nat), hasStore ls2 id = false →
      getStore ls2 id = Except.error (GoError.notFound id) := by
    intro ls2 id hid
    unfold hasStore at hid
    unfold getStore
    cases hf : findStore ls2.storeMap id with
    | none => rfl
    | some s' => rw [hf] at hid; simp at hid
  refine ⟨hspec, hnf, ?_⟩
  have hres := resolveHeader_hint ls h hRaft hSid
  have hgs := hnf ls h.replica.storeID hAbs
  have hat := attemptOnce_store_err ls (execCmd 1) h h
    (GoError.notFound h.replica.storeID) hres hgs
  have hsend : send ls execCmd h =
      ⟨(attemptOnce ls (execCmd 1) h).header, (attemptOnce ls (execCmd 1) h).replyErr,
        (attemptOnce ls (execCmd 1) h).execInput.toList⟩ :=
    sendFrom_succ_stop ls execCmd 1 0 h (by rw [hat])
  rw [hsend, hat]
  rfl

/-- Witness for C8: a hinted header naming the unregistered store 8. -/
theorem getStore_spec_send_no_retry_witness :
    send demoLS demoExecOk demoHeaderBadStore =
      ⟨demoHeaderBadStore, some (GoError.notFound 8), []⟩ :=
  (getStore_spec_send_no_retry demoLS demoExecOk demoHeaderBadStore
    (by decide) (by decide) rfl).2.2

theorem sendFrom_cmdID (ls : LocalSender)
    (execCmd : Nat → Nat → Header → Option GoError) :
    ∀ (fuel i : Nat) (h : Header),
      (sendFrom ls execCmd i fuel h).header.cmdID = h.cmdID ∧
      ∀ hh ∈ (sendFrom ls execCmd i fuel h).execTrace, hh.cmdID = h.cmdID
  | 0, i, h => by
    rw [sendFrom_zero]
    obtain ⟨h1, h2⟩ := attemptOnce_cmdID ls (execCmd i) h
    exact ⟨h1, fun hh hm => h2 hh (Option.mem_def.mp (Option.mem_toList.mp hm))⟩
  | fuel + 1, i, h => by
    cases hc : (attemptOnce ls (execCmd i) h).cont with
    | false =>
      rw [sendFrom_succ_stop ls execCmd i fuel h hc]
      obtain ⟨h1, h2⟩ := attemptOnce_cmdID ls (execCmd i) h
      exact ⟨h1, fun hh hm => h2 hh (Option.mem_def.mp (Option.mem_toList.mp hm))⟩
    | true =>
      rw [sendFrom_succ_cont ls execCmd i fuel h hc]
      obtain ⟨ha1, ha2⟩ := attemptOnce_cmdID ls (execCmd i) h
      obtain ⟨hr1, hr2⟩ := sendFrom_cmdID ls execCmd fuel (i + 1)
        ((attemptOnce ls (execCmd i) h).header)
      refine ⟨hr1.trans ha1, fun hh hm => ?_⟩
      rcases List.mem_append.mp hm with hm1 | hm2
      · exact ha2 hh (Option.mem_def.mp (Option.mem_toList.mp hm1))
      · exact (hr2 hh hm2).trans ha1

/-- C9: the routing layer never modifies the client command identifier:
after any number of attempts of the retry loop the header's CmdID is
unchanged, and every header handed to execution, the retried second
attempt included, carries the original CmdID. -/
theorem send_preserves_cmdID (ls : LocalSender)
    (execCmd : Nat → Nat → Header → Option GoError) (fuel i : Nat) (h : Header) :
    (sendFrom ls execCmd i fuel h).header.cmdID = h.cmdID ∧
    ∀ hh ∈ (sendFrom ls execCmd i fuel h).execTrace, hh.cmdID = h.cmdID :=
  sendFrom_cmdID ls execCmd fuel i h

/-- Witness for C9 at a concrete mismatching run of Send. -/
theorem send_preserves_cmdID_witness :
    (send demoLS demoExecMismatch demoHeader).header.cmdID = demoHeader.cmdID :=
  (send_preserves_cmdID demoLS demoExecMismatch 1 1 demoHeader).1

/-- C10: when the span of a hint-less call is hosted by no registered
store, the RangeKeyMismatch produced by lookupReplica is set on the
reply and Send returns after that single attempt with no execution; in
general an attempt that never reaches execution never asks the retry
loop to continue, so the clear-hint-and-retry path belongs to execution
mismatches only. -/
theorem lookup_mismatch_no_retry (ls : LocalSender)
    (execCmd : Nat → Nat → Header → Option GoError) (h : Header)
    (hHint : h.raftID = 0 ∨ h.replica.storeID = 0)
    (hLk : lookupReplica ls.storeMap h.key h.endKey =
      Except.error (GoError.rangeKeyMismatch h.key h.endKey)) :
    send ls execCmd h = ⟨h, some (GoError.rangeKeyMismatch h.key h.endKey), []⟩ ∧
    ∀ (ls2 : LocalSender) (e2 : Nat → Header → Option GoError) (h2 : Header),
      (attemptOnce ls2 e2 h2).execInput = none →
        (attemptOnce ls2 e2 h2).cont = false := by
  have hres := resolveHeader_err ls h (GoError.rangeKeyMismatch h.key h.endKey) hHint hLk
  have hat := attemptOnce_res_err ls (execCmd 1) h
    (GoError.rangeKeyMismatch h.key h.endKey) hres
  refine ⟨?_, fun ls2 e2 h2 => attemptOnce_no_exec_no_retry ls2 e2 h2⟩
  have hsend : send ls execCmd h =
      ⟨(attemptOnce ls (execCmd 1) h).header, (attemptOnce ls (execCmd 1) h).replyErr,
        (attemptOnce ls (execCmd 1) h).execInput.toList⟩ :=
    sendFrom_succ_stop ls execCmd 1 0 h (by rw [hat])
  rw [hsend, hat]
  rfl

/-- Witness for C10: a registry whose only store hosts no range. -/
theorem lookup_mismatch_no_retry_witness :
    send demoLSEmpty demoExecOk demoHeader =
      ⟨demoHeader, some (GoError.rangeKeyMismatch [97] [98]), []⟩ :=
  (lookup_mismatch_no_retry demoLSEmpty demoExecOk demoHeader (Or.inl rfl) rfl).1

/-! Lemmas relating the meta span and the addressing-prefix regions. -/

theorem inMetaSpan_of_l1 (e : Key) (h : keyHasPre level1Pre e = true) :
    inMetaSpan e = true := by
  obtain ⟨r, rfl⟩ := (keyHasPre_iff level1Pre e).mp h
  simp [inMetaSpan, level1Pre, metaPre, metaMaxKey, keyLess]

theorem inMetaSpan_of_l2 (e : Key) (h : keyHasPre level2Pre e = true) :
    inMetaSpan e = true := by
  obtain ⟨r, rfl⟩ := (keyHasPre_iff level2Pre e).mp h
  simp [inMetaSpan, level2Pre, metaPre, metaMaxKey, keyLess]

theorem inMetaPre_false_of_span (e : Key) (h : inMetaSpan e = false) :
    inMetaPreRegion e = false := by
  unfold inMetaPreRegion
  cases h1 : keyHasPre level1Pre e with
  | true => rw [inMetaSpan_of_l1 e h1] at h; cases h
  | false =>
    cases h2 : keyHasPre level2Pre e with
    | true => rw [inMetaSpan_of_l2 e h2] at h; cases h
    | false => rfl

/-! Claim theorems for the Addressing Index Updater. -/

/-- C3: a split whose left end key falls inside the level-1 region is
rejected with the InvalidSplit error and emits no operations, so
applying its (empty) operation list leaves any index untouched. -/
theorem split_meta1_rejected (left right : RangeDescriptor)
    (h : keyHasPre level1Pre left.endKey = true) :
    SplitRangeAddressing left right = Except.error invalidSplitMsg ∧
    ∀ st : IndexState,
      applyOps st (opsOrEmpty (SplitRangeAddressing left right)) = st := by
  have he : SplitRangeAddressing left right = Except.error invalidSplitMsg := by
    simp [SplitRangeAddressing, h]
  exact ⟨he, fun st => by rw [he]; rfl⟩

/-- Witness for C3: splitting at a key inside the level-1 region. -/
theorem split_meta1_rejected_witness :
    keyHasPre level1Pre demoLeftMeta1.endKey = true ∧
    SplitRangeAddressing demoLeftMeta1 demoRight = Except.error invalidSplitMsg :=
  ⟨by decide, (split_meta1_rejected demoLeftMeta1 demoRight (by decide)).1⟩

/-- C4: a split at B of a range ending at C with neither B nor C in the
meta-addressing span yields exactly the two level-2 records keyed at B
(for left) and C (for right) and no level-1 record; and any legal split
additionally yields the level-1 record for an end key that lies in the
addressing-prefix region. -/
theorem split_record_keys (left right : RangeDescriptor)
    (hB : inMetaSpan left.endKey = false) (hC : inMetaSpan right.endKey = false) :
    SplitRangeAddressing left right =
      Except.ok [IndexOp.put (level2Pre ++ left.endKey) left,
                 IndexOp.put (level2Pre ++ right.endKey) right] ∧
    ∀ (l r : RangeDescriptor) (ops : List IndexOp),
      SplitRangeAddressing l r = Except.ok ops →
      (inMetaPreRegion l.endKey = true →
        IndexOp.put (level1Pre ++ l.endKey) l ∈ ops) ∧
      (inMetaPreRegion r.endKey = true →
        IndexOp.put (level1Pre ++ r.endKey) r ∈ ops) := by
  constructor
  · have hBp := inMetaPre_false_of_span left.endKey hB
    have hCp := inMetaPre_false_of_span right.endKey hC
    have hl1 : keyHasPre level1Pre left.endKey = false := by
      unfold inMetaPreRegion at hBp
      cases hx : keyHasPre level1Pre left.endKey with
      | true => rw [hx] at hBp; simp at hBp
      | false => rfl
    simp [SplitRangeAddressing, hl1, descRecordOps, hBp, hCp]
  · intro l r ops hok
    have hl1 : keyHasPre level1Pre l.endKey = false := by
      cases hx : keyHasPre level1Pre l.endKey with
      | true => rw [SplitRangeAddressing, hx] at hok; cases hok
      | false => rfl
    rw [SplitRangeAddressing, hl1] at hok
    simp only [Bool.false_eq_true, if_false] at hok
    injection hok with hops
    constructor
    · intro hm
      rw [hops.symm]
      simp [descRecordOps, hm]
    · intro hm
      rw [hops.symm]
      simp [descRecordOps, hm]

/-- Witness for C4: the concrete split of the full keyspace at "a". -/
theorem split_record_keys_witness :
    inMetaSpan demoLeft.endKey = false ∧ inMetaSpan demoRight.endKey = false ∧
    SplitRangeAddressing demoLeft demoRight =
      Except.ok [IndexOp.put (level2Pre ++ demoLeft.endKey) demoLeft,
                 IndexOp.put (level2Pre ++ demoRight.endKey) demoRight] :=
  ⟨by decide, by decide,
    (split_record_keys demoLeft demoRight (by decide) (by decide)).1⟩

/-- C2: for a split (left, right) applied to an index in which the new
boundary left.EndKey has no records and the combined end key
right.EndKey has its records, the merge recombining the halves restores
the index to its pre-split state: every key outside the combined end
key's records reads exactly as before, the combined records now hold
the merged descriptor, and the set of present record keys is unchanged. -/
theorem merge_undoes_split (st0 : IndexState) (left right merged : RangeDescriptor)
    (sOps mOps : List IndexOp)
    (hS : SplitRangeAddressing left right = Except.ok sOps)
    (hM : MergeRangeAddressing left merged = Except.ok mOps)
    (hEnd : merged.endKey = right.endKey)
    (hA2 : idxLookup st0 (level2Pre ++ left.endKey) = none)
    (hA1 : inMetaPreRegion left.endKey = true →
      idxLookup st0 (level1Pre ++ left.endKey) = none)
    (hP2 : (idxLookup st0 (level2Pre ++ right.endKey)).isSome = true)
    (hP1 : inMetaPreRegion right.endKey = true →
      (idxLookup st0 (level1Pre ++ right.endKey)).isSome = true) :
    (∀ k, idxLookup (applyOps (applyOps st0 sOps) mOps) k =
      if k ∈ recordKeysOfEnd merged.endKey then some merged else idxLookup st0 k) ∧
    (∀ k, (idxLookup (applyOps (applyOps st0 sOps) mOps) k).isSome =
      (idxLookup st0 k).isSome) := by
  have hsops : sOps = descRecordOps left ++ descRecordOps right := by
    cases hx : keyHasPre level1Pre left.endKey with
    | true => rw [SplitRangeAddressing, hx] at hS; cases hS
    | false =>
      rw [SplitRangeAddressing, hx] at hS
      simp only [Bool.false_eq_true, if_false] at hS
      injection hS with hS
      exact hS.symm
  have hmops : mOps = delRecordOps left.endKey ++ descRecordOps merged := by
    rw [MergeRangeAddressing] at hM
    injection hM with hM
    exact hM.symm
  subst hsops hmops
  have main : ∀ k, idxLookup
      (applyOps (applyOps st0 (descRecordOps left ++ descRecordOps right))
        (delRecordOps left.endKey ++ descRecordOps merged)) k =
      if k ∈ recordKeysOfEnd merged.endKey then some merged
      else idxLookup st0 k := by
    intro k
    rw [applyOps_append, applyOps_append, idxLookup_descOps]
    by_cases h1 : k ∈ recordKeysOfEnd merged.endKey
    · rw [if_pos h1, if_pos h1]
    · rw [if_neg h1, if_neg h1, idxLookup_delOps]
      by_cases h2 : k ∈ recordKeysOfEnd left.endKey
      · rw [if_pos h2]
        rcases mem_recordKeysOfEnd.mp h2 with rfl | ⟨hm, rfl⟩
        · exact hA2.symm
        · exact (hA1 hm).symm
      · rw [if_neg h2, idxLookup_descOps, idxLookup_descOps, if_neg h2]
        rw [if_neg (fun hr => h1 (by
          rw [recordKeys_of_end_eq hEnd]
          exact hr))]
  refine ⟨main, fun k => ?_⟩
  rw [main k]
  by_cases h1 : k ∈ recordKeysOfEnd merged.endKey
  · rw [if_pos h1]
    rw [recordKeys_of_end_eq hEnd] at h1
    rcases mem_recordKeysOfEnd.mp h1 with rfl | ⟨hm, rfl⟩
    · exact hP2.symm
    · exact (hP1 hm).symm
  · rw [if_neg h1]

/-- Witness for C2: split the full keyspace at "a", then merge back. -/
theorem merge_undoes_split_witness :
    (∀ k, idxLookup
        (applyOps (applyOps initState.idx (descRecordOps demoLeft ++ descRecordOps demoRight))
          (delRecordOps demoLeft.endKey ++ descRecordOps demoMerged)) k =
      if k ∈ recordKeysOfEnd demoMerged.endKey then some demoMerged
      else idxLookup initState.idx k) ∧
    (∀ k, (idxLookup
        (applyOps (applyOps initState.idx (descRecordOps demoLeft ++ descRecordOps demoRight))
          (delRecordOps demoLeft.endKey ++ descRecordOps demoMerged)) k).isSome =
      (idxLookup initState.idx k).isSome) :=
  merge_undoes_split initState.idx demoLeft demoRight demoMerged
    (descRecordOps demoLeft ++ descRecordOps demoRight)
    (delRecordOps demoLeft.endKey ++ descRecordOps demoMerged)
    rfl rfl (by decide) (by decide) (by decide) (by decide) (by decide)

/-! Lemmas on range chains and the structural operations, toward the
coverage invariant. -/

theorem chainFrom_lt : ∀ (lo : Key) (ds : List RangeDescriptor), chainFrom lo ds →
    ∀ d ∈ ds, keyLess lo d.endKey = true
  | _, [], _, d, hd => absurd hd (List.not_mem_nil d)
  | lo, d0 :: ds, h, d, hd => by
    obtain ⟨hs, hlt, hch⟩ := h
    rcases List.mem_cons.mp hd with rfl | hd'
    · exact hlt
    · exact keyLess_trans lo d0.endKey d.endKey hlt
        (chainFrom_lt d0.endKey ds hch d hd')

theorem replaceSplit_chain : ∀ (l r : RangeDescriptor)
    (ds ds' : List RangeDescriptor) (lo : Key),
    replaceSplit l r ds = some ds' → chainFrom lo ds → chainFrom lo ds'
  | l, r, [], ds', lo, h, _ => by cases h
  | l, r, d :: ds, ds', lo, h, hch => by
    obtain ⟨hs, hlt, htail⟩ := hch
    rw [replaceSplit] at h
    by_cases hc1 : d.startKey = l.startKey ∧ d.endKey = r.endKey
    · rw [if_pos hc1] at h
      by_cases hc2 : l.endKey = r.startKey ∧ keyLess d.startKey l.endKey = true ∧
          keyLess l.endKey d.endKey = true
      · rw [if_pos hc2] at h
        injection h with h
        rw [h.symm]
        obtain ⟨hb, hlt1, hlt2⟩ := hc2
        refine ⟨hc1.1.symm.trans hs, hs ▸ hlt1, hb.symm, ?_, ?_⟩
        · rw [hc1.2] at hlt2
          exact hlt2
        · rw [hc1.2] at htail
          exact htail
      · rw [if_neg hc2] at h
        cases h
    · rw [if_neg hc1] at h
      rcases Option.map_eq_some'.mp h with ⟨rs, hrs, hds'⟩
      rw [hds'.symm]
      exact ⟨hs, hlt, replaceSplit_chain l r ds rs d.endKey hrs htail⟩

theorem replaceSplit_parent : ∀ (l r : RangeDescriptor)
    (ds ds' : List RangeDescriptor), replaceSplit l r ds = some ds' →
    r.endKey ∈ ds.map (fun d => d.endKey)
  | l, r, [], ds', h => by cases h
  | l, r, d :: ds, ds', h => by
    rw [replaceSplit] at h
    by_cases hc1 : d.startKey = l.startKey ∧ d.endKey = r.endKey
    · exact List.mem_cons.mpr (Or.inl hc1.2.symm)
    · rw [if_neg hc1] at h
      rcases Option.map_eq_some'.mp h with ⟨rs, hrs, _⟩
      exact List.mem_cons.mpr (Or.inr (replaceSplit_parent l r ds rs hrs))

theorem replaceSplit_ends : ∀ (l r : RangeDescriptor)
    (ds ds' : List RangeDescriptor), replaceSplit l r ds = some ds' →
    ∀ e : Key, e ∈ ds'.map (fun d => d.endKey) ↔
      e = l.endKey ∨ e ∈ ds.map (fun d => d.endKey)
  | l, r, [], ds', h, e => by cases h
  | l, r, d :: ds, ds', h, e => by
    rw [replaceSplit] at h
    by_cases hc1 : d.startKey = l.startKey ∧ d.endKey = r.endKey
    · rw [if_pos hc1] at h
      by_cases hc2 : l.endKey = r.startKey ∧ keyLess d.startKey l.endKey = true ∧
          keyLess l.endKey d.endKey = true
      · rw [if_pos hc2] at h
        injection h with h
        rw [h.symm]
        simp only [List.map_cons, List.mem_cons]
        rw [hc1.2]
      · rw [if_neg hc2] at h
        cases h
    · rw [if_neg hc1] at h
      rcases Option.map_eq_some'.mp h with ⟨rs, hrs, hds'⟩
      rw [hds'.symm]
      simp only [List.map_cons, List.mem_cons,
        replaceSplit_ends l r ds rs hrs e]
      tauto

theorem replaceMerge_mem : ∀ (l m : RangeDescriptor)
    (ds ds' : List RangeDescriptor), replaceMerge l m ds = some ds' →
    l.endKey ∈ ds.map (fun d => d.endKey)
  | l, m, [], ds', h => by cases h
  | l, m, [d], ds', h => by cases h
  | l, m, a :: b :: ds, ds', h => by
    rw [replaceMerge] at h
    by_cases hc : a.startKey = l.startKey ∧ a.endKey = l.endKey ∧
        m.startKey = a.startKey ∧ b.startKey = l.endKey ∧ b.endKey = m.endKey
    · exact List.mem_cons.mpr (Or.inl hc.2.1.symm)
    · rw [if_neg hc] at h
      rcases Option.map_eq_some'.mp h with ⟨rs, hrs, _⟩
      exact List.mem_cons.mpr (Or.inr (replaceMerge_mem l m (b :: ds) rs hrs))

theorem replaceMerge_chain : ∀ (l m : RangeDescriptor)
    (ds ds' : List RangeDescriptor) (lo : Key),
    replaceMerge l m ds = some ds' → chainFrom lo ds → chainFrom lo ds'
  | l, m, [], ds', lo, h, _ => by cases h
  | l, m, [d], ds', lo, h, _ => by cases h
  | l, m, a :: b :: ds, ds', lo, h, hch => by
    obtain ⟨hsa, hlta, hsb, hltb, htail⟩ := hch
    rw [replaceMerge] at h
    by_cases hc : a.startKey = l.startKey ∧ a.endKey = l.endKey ∧
        m.startKey = a.startKey ∧ b.startKey = l.endKey ∧ b.endKey = m.endKey
    · rw [if_pos hc] at h
      injection h with h
      rw [h.symm]
      refine ⟨hc.2.2.1.trans hsa, ?_, ?_⟩
      · rw [hc.2.2.2.2] at hltb
        exact keyLess_trans lo a.endKey m.endKey hlta hltb
      · rw [hc.2.2.2.2] at htail
        exact htail
    · rw [if_neg hc] at h
      rcases Option.map_eq_some'.mp h with ⟨rs, hrs, hds'⟩
      rw [hds'.symm]
      exact ⟨hsa, hlta,
        replaceMerge_chain l m (b :: ds) rs a.endKey hrs ⟨hsb, hltb, htail⟩⟩

theorem replaceMerge_ends : ∀ (l m : RangeDescriptor)
    (ds ds' : List RangeDescriptor) (lo : Key),
    replaceMerge l m ds = some ds' → chainFrom lo ds →
    ∀ e : Key, e ∈ ds'.map (fun d => d.endKey) ↔
      e = m.endKey ∨ (¬ e = l.endKey ∧ e ∈ ds.map (fun d => d.endKey))
  | l, m, [], ds', lo, h, _, e => by cases h
  | l, m, [d], ds', lo, h, _, e => by cases h
  | l, m, a :: b :: ds, ds', lo, h, hch, e => by
    obtain ⟨hsa, hlta, hsb, hltb, htail⟩ := hch
    rw [replaceMerge] at h
    by_cases hc : a.startKey = l.startKey ∧ a.endKey = l.endKey ∧
        m.startKey = a.startKey ∧ b.startKey = l.endKey ∧ b.endKey = m.endKey
    · rw [if_pos hc] at h
      injection h with h
      rw [h.symm]
      simp only [List.map_cons, List.mem_cons]
      rw [hc.2.1, hc.2.2.2.2]
      have hrest : ∀ e', e' ∈ ds.map (fun d => d.endKey) → ¬ e' = l.endKey := by
        intro e' he' heq
        rcases List.mem_map.mp he' with ⟨d', hd', hde⟩
        have h1 : keyLess b.endKey d'.endKey = true :=
          chainFrom_lt b.endKey ds htail d' hd'
        have h2 : keyLess a.endKey d'.endKey = true :=
          keyLess_trans a.endKey b.endKey d'.endKey hltb h1
        rw [hc.2.1, hde, heq] at h2
        rw [keyLess_irrefl] at h2
        exact Bool.noConfusion h2
      constructor
      · rintro (h1 | h1)
        · exact Or.inl h1
        · exact Or.inr ⟨hrest e h1, Or.inr (Or.inr h1)⟩
      · rintro (h1 | ⟨hne, h1 | h1 | h1⟩)
        · exact Or.inl h1
        · exact absurd h1 hne
        · exact Or.inl h1
        · exact Or.inr h1
    · rw [if_neg hc] at h
      rcases Option.map_eq_some'.mp h with ⟨rs, hrs, hds'⟩
      rw [hds'.symm]
      have hIH := replaceMerge_ends l m (b :: ds) rs a.endKey hrs ⟨hsb, hltb, htail⟩ e
      have hal : ¬ a.endKey = l.endKey := by
        have hmem := replaceMerge_mem l m (b :: ds) rs hrs
        rcases List.mem_map.mp hmem with ⟨d', hd', hde⟩
        have h1 := chainFrom_lt a.endKey (b :: ds) ⟨hsb, hltb, htail⟩ d' hd'
        rw [hde] at h1
        exact keyLess_ne h1
      simp only [List.map_cons, List.mem_cons] at hIH ⊢
      rw [hIH]
      constructor
      · rintro (h1 | h1 | ⟨hne, h1⟩)
        · exact Or.inr ⟨fun he => hal (h1.symm.trans he), Or.inl h1⟩
        · exact Or.inl h1
        · exact Or.inr ⟨hne, Or.inr h1⟩
      · rintro (h1 | ⟨hne, h1 | h1 | h1⟩)
        · exact Or.inr (Or.inl h1)
        · exact Or.inl h1
        · exact Or.inr (Or.inr ⟨hne, Or.inl h1⟩)
        · exact Or.inr (Or.inr ⟨hne, Or.inr h1⟩)

theorem applyAddrOp_good (s s' : SysState) (op : AddrOp)
    (h : applyAddrOp s op = some s') (hg : goodState s) : goodState s' := by
  obtain ⟨hch, hcoh⟩ := hg
  cases op with
  | split l r =>
    cases hrs : replaceSplit l r s.ranges with
    | none => rw [applyAddrOp, hrs] at h; cases h
    | some rs =>
      cases hsp : SplitRangeAddressing l r with
      | error e => rw [applyAddrOp, hrs, hsp] at h; cases h
      | ok ops =>
        simp only [applyAddrOp, hrs, hsp, Option.some.injEq] at h
        have hops : ops = descRecordOps l ++ descRecordOps r := by
          cases hx : keyHasPre level1Pre l.endKey with
          | true => rw [SplitRangeAddressing, hx] at hsp; cases hsp
          | false =>
            rw [SplitRangeAddressing, hx] at hsp
            simp only [Bool.false_eq_true, if_false] at hsp
            injection hsp with hsp
            exact hsp.symm
        subst hops
        rw [h.symm]
        refine ⟨replaceSplit_chain l r s.ranges rs keyMin hrs hch, fun e => ?_⟩
        rw [replaceSplit_ends l r s.ranges rs hrs e]
        show (idxLookup (applyOps s.idx (descRecordOps l ++ descRecordOps r))
          (level2Pre ++ e)).isSome = true ↔ _
        rw [applyOps_append, idxLookup_descOps]
        by_cases her : e = r.endKey
        · rw [if_pos (l2_mem_recordKeys.mpr her)]
          simp only [Option.isSome_some]
          constructor
          · intro _
            refine Or.inr ?_
            rw [her]
            exact replaceSplit_parent l r s.ranges rs hrs
          · intro _
            trivial
        · rw [if_neg (fun hm => her (l2_mem_recordKeys.mp hm)), idxLookup_descOps]
          by_cases hel : e = l.endKey
          · rw [if_pos (l2_mem_recordKeys.mpr hel)]
            simp only [Option.isSome_some]
            exact ⟨fun _ => Or.inl hel, fun _ => trivial⟩
          · rw [if_neg (fun hm => hel (l2_mem_recordKeys.mp hm)), hcoh e]
            constructor
            · intro h1
              exact Or.inr h1
            · rintro (h1 | h1)
              · exact absurd h1 hel
              · exact h1
  | merge l m =>
    cases hrs : replaceMerge l m s.ranges with
    | none => rw [applyAddrOp, hrs] at h; cases h
    | some rs =>
      simp only [applyAddrOp, hrs, MergeRangeAddressing, Option.some.injEq] at h
      rw [h.symm]
      refine ⟨replaceMerge_chain l m s.ranges rs keyMin hrs hch, fun e => ?_⟩
      rw [replaceMerge_ends l m s.ranges rs keyMin hrs hch e]
      show (idxLookup (applyOps s.idx (delRecordOps l.endKey ++ descRecordOps m))
        (level2Pre ++ e)).isSome = true ↔ _
      rw [applyOps_append, idxLookup_descOps]
      by_cases hem : e = m.endKey
      · rw [if_pos (l2_mem_recordKeys.mpr hem)]
        simp only [Option.isSome_some]
        exact ⟨fun _ => Or.inl hem, fun _ => trivial⟩
      · rw [if_neg (fun hm => hem (l2_mem_recordKeys.mp hm)), idxLookup_delOps]
        by_cases hel : e = l.endKey
        · rw [if_pos (l2_mem_recordKeys.mpr hel)]
          simp only [Option.isSome_none]
          constructor
          · intro hx
            exact Bool.noConfusion hx
          · rintro (h1 | ⟨hne, _⟩)
            · exact absurd h1 hem
            · exact absurd hel hne
        · rw [if_neg (fun hm => hel (l2_mem_recordKeys.mp hm)), hcoh e]
          constructor
          · intro h1
            exact Or.inr ⟨hel, h1⟩
          · rintro (h1 | ⟨hne, h1⟩)
            · exact absurd h1 hem
            · exact h1

theorem applyAddrOps_good : ∀ (ops : List AddrOp) (s s' : SysState),
    applyAddrOps s ops = some s' → goodState s → goodState s'
  | [], s, s', h, hg => by
    rw [applyAddrOps] at h
    injection h with h
    rw [h.symm]
    exact hg
  | op :: ops, s, s', h, hg => by
    rw [applyAddrOps] at h
    cases hop : applyAddrOp s op with
    | none => rw [hop] at h; cases h
    | some s1 =>
      rw [hop] at h
      exact applyAddrOps_good ops s1 s' h (applyAddrOp_good s s1 op hop hg)

theorem initState_good : goodState initState := by
  constructor
  · exact ⟨rfl, by decide, rfl⟩
  · intro e
    show (idxLookup (applyOps [] (descRecordOps initDesc)) (level2Pre ++ e)).isSome =
      true ↔ _
    rw [idxLookup_descOps]
    by_cases he : e = initDesc.endKey
    · rw [if_pos (l2_mem_recordKeys.mpr he)]
      simp [he, initState]
    · rw [if_neg (fun hm => he (l2_mem_recordKeys.mp hm))]
      simp [idxLookup, he, initState]

theorem chainFrom_endChain : ∀ (lo : Key) (ds : List RangeDescriptor),
    chainFrom lo ds → endChain lo (ds.map (fun d => d.endKey))
  | _, [], h => h
  | _, d :: ds, h => ⟨h.2.1, chainFrom_endChain d.endKey ds h.2.2⟩

/-- C5: after any finite sequence of valid splits and merges applied
from the single full-keyspace range, with each operation's addressing
writes applied to the index, the spans inferred from consecutive
level-2 record end keys partition [KeyMin, KeyMax): a strictly
increasing run of end keys finishing at KeyMax carries exactly the
level-2 records present in the index. -/
theorem coverage_invariant (ops : List AddrOp) (s' : SysState)
    (h : applyAddrOps initState ops = some s') : level2Partition s'.idx := by
  obtain ⟨hch, hcoh⟩ := applyAddrOps_good ops initState s' h initState_good
  exact ⟨s'.ranges.map (fun d => d.endKey), chainFrom_endChain keyMin s'.ranges hch, hcoh⟩

/-- Witness for C5: the demo sequence split-split-merge starting from
the full keyspace. -/
theorem coverage_invariant_witness : level2Partition demoFinal.idx :=
  coverage_invariant demoOps demoFinal (by decide)
